import Mathlib

/-!
Verification of the integrity-checking core of the go-release repository.

The development shallowly embeds the Go sources:
  - pkg/utils/crc.go    (CRC32 checksum engine, sequential and parallel chunked)
  - sfv_check.go        (sidecar SFV manifest verification)
  - srr_check.go        (remote-record SRR verification)
  - nfo_handler.go      (multi-volume zip archive-set validation)

File contents are modelled as lists of byte values (Nat, masked to 8 bits where
the code masks), machine integers as Nat, Go errors as an inductive type whose
constructors stand for the deepest errors.Is-reachable sentinel of each wrapped
error chain, and the runtime outcome of one engine invocation (which can be
interrupted by context cancellation or I/O failure) as an explicit outcome value.
-/

set_option maxRecDepth 8000

namespace GoRelease

/-! # Definitions

## CRC32 core (Go hash/crc32, IEEE polynomial)

Go computes the IEEE CRC32 with a lookup table generated from the reflected
polynomial 0xEDB88320; the table-driven byte update equals eight bit-steps of
the reflected LFSR.  We embed the bit-level definition, which is the defining
recurrence of the table entries in hash/crc32. -/

/-- Reflected IEEE polynomial, the table generator constant in Go hash/crc32. -/
def crcPoly : Nat := 0xEDB88320

/-- One bit-step of the reflected CRC32 register update (the inner step of
table generation in hash/crc32). -/
def crcStep (r : Nat) : Nat :=
  if r &&& 1 = 1 then (r >>> 1) ^^^ crcPoly else r >>> 1

/-- Feed one byte into the CRC32 register: xor the byte into the low bits,
then run eight bit-steps.  Equals the table-driven update
`(r >> 8) xor table[(r xor b) and 0xff]` of hash/crc32. -/
def crcUpdateByte (r b : Nat) : Nat := crcStep^[8] (r ^^^ (b &&& 0xFF))

/-- CRC32 register after streaming the bytes `bs` starting from register `r`. -/
def crcRegister (r : Nat) (bs : List Nat) : Nat := bs.foldl crcUpdateByte r

/-- IEEE CRC32 of a byte sequence, as computed by `crc32.NewIEEE` in Go:
initial register 0xFFFFFFFF, final xor 0xFFFFFFFF. -/
def crc32 (bs : List Nat) : Nat := crcRegister 0xFFFFFFFF bs ^^^ 0xFFFFFFFF

/-- Modelled from the spec: the external `crc32combine.CRC32Combine`
(vimeo/go-util, dependency of pkg/utils/crc.go, not part of this repository)
is the zlib crc32_combine algorithm specialised to the IEEE polynomial.
For a non-positive second length it returns crc1 unchanged; otherwise it
applies the GF(2)-linear operator of 8*len2 zero bits to crc1 and xors crc2.
The matrix-exponentiation of the original is replaced by the equal
byte-at-a-time zero feed, len2 applications of the zero-byte operator. -/
def CRC32Combine (crc1 crc2 : Nat) (len2 : Nat) : Nat :=
  if len2 = 0 then crc1 else crcStep^[8 * len2] crc1 ^^^ crc2

/-- Conditional feedback summand of one bit-step (proof helper). -/
def crcMask (r : Nat) : Nat := if r &&& 1 = 1 then crcPoly else 0

/-! ## Chunk planning (GetCRC32Parallel, crc.go lines 133-161)

The Go loop runs while fileRemaining > 0, allocating
min(fileRemaining, chunkRemaining) bytes per chunk after resetting an exhausted
chunkRemaining to chunkSize.  Each iteration consumes at least one byte of
fileRemaining, so the loop runs at most fileSize iterations; the embedding
makes this explicit with a fuel argument that is instantiated with fileSize. -/

/-- Fixed chunk size of GetCRC32Parallel: 10 MiB (crc.go line 135). -/
def chunkSize : Nat := 1024 * 1024 * 10

/-- The fileChunk record of crc.go: start offset and length of one contiguous
slice of the file. -/
structure fileChunk where
  startPos : Nat
  chunkLength : Nat
deriving Repr, DecidableEq

/-- Chunk-planning loop of GetCRC32Parallel (crc.go lines 146-161), with
fileRemaining and chunkRemaining as explicit state.  The fuel argument bounds
the iteration count; every call made with fileRemaining ≤ fuel is insensitive
to it. -/
def buildChunksLoop (fileSize : Nat) : Nat → Nat → Nat → List fileChunk
  | 0, _, _ => []
  | _+1, 0, _ => []
  | fuel+1, fr+1, chunkRemaining =>
    let cr := if chunkRemaining = 0 then chunkSize else chunkRemaining
    let toAllocate := min (fr+1) cr
    { startPos := fileSize - (fr+1), chunkLength := toAllocate } ::
      buildChunksLoop fileSize fuel (fr + 1 - toAllocate) (cr - toAllocate)

/-- Chunk plan computed by GetCRC32Parallel for a file of the given size:
the loop starts with fileRemaining = fileSize and chunkRemaining = chunkSize. -/
def buildChunks (fileSize : Nat) : List fileChunk :=
  buildChunksLoop fileSize fileSize fileSize chunkSize

/-- Number of result slots GetCRC32Parallel pre-allocates:
totalChunks = (fileSize + chunkSize - 1) / chunkSize (crc.go line 136). -/
def totalChunks (fileSize : Nat) : Nat := (fileSize + chunkSize - 1) / chunkSize

/-! ## Parallel computation model (GetCRC32Parallel, crc.go lines 163-247)

Workers pull chunk jobs from a channel and emit ChunkResults in an arbitrary
completion order; the orchestrator stores each result at index result.idx of a
pre-sized slice and, once the byte count reaches the file size, folds the
stored slice in ascending index order with CRC32Combine.  The value computed
by one job is deterministic, so a run is fully described by the arrival
permutation of the canonical result list. -/

/-- The chunk record of crc.go (line 29): index, partial crc, byte count. -/
structure chunk where
  idx : Nat
  crc : Nat
  len : Nat
deriving Repr, DecidableEq

/-- Bytes a worker reads for the chunk `fc`: it opens its own handle, seeks to
startPos and copies exactly chunkLength bytes (crc.go lines 189-203). -/
def chunkBytes (bytes : List Nat) (fc : fileChunk) : List Nat :=
  (bytes.drop fc.startPos).take fc.chunkLength

/-- ChunkResult computed by the job for chunk index `i` (crc.go lines 184-218):
the partial CRC32 of the chunk bytes and the number of bytes written. -/
def chunkJob (bytes : List Nat) (i : Nat) (fc : fileChunk) : chunk :=
  { idx := i, crc := crc32 (chunkBytes bytes fc), len := (chunkBytes bytes fc).length }

/-- Job results for a chunk list, indices assigned by enumeration order of the
producer loop (crc.go lines 183-219). -/
def jobsFrom (bytes : List Nat) : Nat → List fileChunk → List chunk
  | _, [] => []
  | i, fc :: rest => chunkJob bytes i fc :: jobsFrom bytes (i+1) rest

/-- Canonical result list of a parallel run: one result per planned chunk. -/
def parallelResults (bytes : List Nat) : List chunk :=
  jobsFrom bytes 0 (buildChunks bytes.length)

/-- Collection loop of the orchestrator (crc.go lines 222-240): results arrive
in some order and each is stored at position result.idx of the pre-sized
results slice (Go zero value chunk{} in unwritten slots). -/
def storeLoop (n : Nat) (arrivals : List chunk) : List chunk :=
  arrivals.foldl (fun results r => results.set r.idx r) (List.replicate n ⟨0, 0, 0⟩)

/-- Final combination fold (crc.go lines 242-244): resultCRC starts at 0 and is
combined with every stored chunk CRC in ascending index order. -/
def combineResults (results : List chunk) : Nat :=
  results.foldl (fun resultCRC c => CRC32Combine resultCRC c.crc c.len) 0

/-- GetCRC32 (crc.go lines 250-282), sequential mode: stream the whole file
through one CRC32 hasher. -/
def GetCRC32 (bytes : List Nat) : Nat := crc32 bytes

/-- Value computed by GetCRC32Parallel (crc.go lines 118-247) on the contents
`bytes`.  The worker count — hashThreads when positive, otherwise the
GOMAXPROCS default passed as defaultParallelism — only sizes the worker pool;
the checksum is the indexed fold of the stored canonical results. -/
def GetCRC32Parallel (bytes : List Nat) (hashThreads defaultParallelism : Nat) : Nat :=
  combineResults (storeLoop (totalChunks bytes.length) (parallelResults bytes))

/-! ## Go error model

Errors are wrapped with fmt.Errorf("...: %w", err), which preserves the set of
sentinels reachable by errors.Is; each constructor below stands for the deepest
sentinel of one wrap chain.  verifySingleSRR discards the verification error
and wraps a fresh ErrSrrValidationFailed instead, which the model reflects by
returning a different constructor. -/

/-- Go error sentinels reachable via errors.Is after wrapping. -/
inductive GoError where
  | ctxCanceled
  | ctxDeadlineExceeded
  | crcMismatch
  | ioError
  | fileNotFound
  | statError
  | parseCrcError
  | sfvValidationFailed
  | emptySfv
  | invalidSfv
  | srrValidationFailed (msg : String)
  | noFileCountInDiz
  | noArchiveInZip
  | zipCountMismatch (expected got : Nat)
  | zipTooManySizes
deriving Repr, DecidableEq

/-- Runtime outcome of one checksum-engine invocation on a file: the read can
complete over the file contents, be interrupted by cancellation or a deadline
of the supplied context, or fail with an I/O error.  GetCRC32 returns the
context error verbatim (crc.go 270-279) and GetCRC32Parallel returns ctx.Err()
at the collection loop (crc.go 230-231), so the surfaced sentinel is exactly
the constructor below. -/
inductive EngineOutcome where
  | ok (contents : List Nat)
  | canceled
  | deadlineExceeded
  | ioFailure
deriving Repr, DecidableEq

/-- Error-or-checksum result of one engine run. -/
def runEngine : EngineOutcome → Except GoError Nat
  | .ok bs => .ok (crc32 bs)
  | .canceled => .error .ctxCanceled
  | .deadlineExceeded => .error .ctxDeadlineExceeded
  | .ioFailure => .error .ioError

/-- CheckCRC.VerifyCRC32 (crc.go 94-115): an engine error is wrapped with the
file name, preserving its sentinel; a successful computation that differs from
the wanted CRC is ErrCRCMismatch. -/
def VerifyCRC32 (wantCRC : Nat) (outcome : EngineOutcome) : Option GoError :=
  match runEngine outcome with
  | .error e => some e
  | .ok fileCRC => if fileCRC ≠ wantCRC then some .crcMismatch else none

/-! ## Sidecar (SFV) verifier, sfv_check.go -/

/-- sfvFile record (sfv_check.go line 34). -/
structure sfvFile where
  name : String
  path : String
  crc : Nat
  size : Nat
deriving Repr, DecidableEq

/-- Character class of the name group of sfvRegex: not a semicolon and not
whitespace. -/
def isSFVNameChar (c : Char) : Bool := !(c = ';') && !c.isWhitespace

/-- Character class of the crc group of sfvRegex: case-insensitive hex digit. -/
def isHexChar (c : Char) : Bool :=
  c.isDigit || ('a' ≤ c && c ≤ 'f') || ('A' ≤ c && c ≤ 'F')

/-- Numeric value of one hex digit. -/
def hexCharVal (c : Char) : Nat :=
  if c.isDigit then c.toNat - 48
  else if 'a' ≤ c && c ≤ 'f' then c.toNat - 87
  else if 'A' ≤ c && c ≤ 'F' then c.toNat - 55
  else 0

/-- Value of a hex digit string. -/
def hexVal (cs : List Char) : Nat := cs.foldl (fun acc c => 16 * acc + hexCharVal c) 0

/-- strconv.ParseUint(s, 16, 32): hex digits only, non-empty, value below
2^32. -/
def parseHexUint32 (s : String) : Option Nat :=
  let cs := s.toList
  if cs.isEmpty then none
  else if !cs.all isHexChar then none
  else if hexVal cs < 2 ^ 32 then some (hexVal cs) else none

/-- Per-line model of sfvRegex (sfv_check.go line 19): with the multiline
anchor a match must begin at a line start, with optional leading whitespace, a
nonempty run of non-whitespace non-semicolon characters, at least one
whitespace character, then eight hex digits.  The greedy runs are exact here
because the character that ends each run cannot start the next group.
Pathological matches of the Go regex that span line boundaries (the whitespace
class contains the newline) are outside this per-line model. -/
def parseSFVLine (line : String) : Option (String × String) :=
  let cs := (line.toList).dropWhile Char.isWhitespace
  let name := cs.takeWhile isSFVNameChar
  let rest := cs.dropWhile isSFVNameChar
  if name.isEmpty then none
  else
    let ws := rest.takeWhile Char.isWhitespace
    let rest2 := rest.dropWhile Char.isWhitespace
    if ws.isEmpty then none
    else
      let hex := rest2.take 8
      if hex.length = 8 && hex.all isHexChar then
        some (String.mk name, String.mk hex)
      else none

/-- processSFVEntry (sfv_check.go 162-181): stat the referenced file relative
to the manifest directory (a missing file is a fatal error) and parse the hex
CRC.  statFn models os.Stat on the joined path, returning the size of an
existing file. -/
def processSFVEntry (statFn : String → Option Nat) (fileName crcStr : String) :
    Except GoError sfvFile :=
  match statFn fileName with
  | none => .error .statError
  | some size =>
    match parseHexUint32 crcStr with
    | none => .error .parseCrcError
    | some crcValue => .ok ⟨fileName, fileName, crcValue, size⟩

/-- Entry-building loop of getFilesFromSFV (sfv_check.go 150-156): every regex
match contributes exactly one entry, and the first failing entry aborts. -/
def buildSFVEntries (statFn : String → Option Nat) :
    List (String × String) → Except GoError (List sfvFile)
  | [] => .ok []
  | (name, crcStr) :: rest =>
    match processSFVEntry statFn name crcStr with
    | .error e => .error e
    | .ok f =>
      match buildSFVEntries statFn rest with
      | .error e => .error e
      | .ok fs => .ok (f :: fs)

/-- getFilesFromSFV (sfv_check.go 136-159) over the manifest lines: zero regex
matches is the invalid-manifest error ErrInvalidSfv. -/
def getFilesFromSFV (statFn : String → Option Nat) (lines : List String) :
    Except GoError (List sfvFile) :=
  let found := lines.filterMap parseSFVLine
  if found.isEmpty then .error .invalidSfv
  else buildSFVEntries statFn found

/-- Observable result of performSFVCheck: the returned (passed, error) pair
together with the per-entry verification record (an entry whose iteration
completes is recorded with its pass/fail result; a failing entry is logged and
the loop continues). -/
structure SFVCheckResult where
  passed : Bool
  err : Option GoError
  trace : List (String × Bool)
deriving Repr, DecidableEq

/-- Verification loop of performSFVCheck (sfv_check.go 108-130).  Each entry is
paired with the result of its tree lookup: none models a failing
GetFileByAbsolutePath (returned wrapped, aborting the manifest), some oc is the
engine outcome for the file.  A cancellation or deadline error returns
immediately; any other verification error marks the check failed and the loop
continues with the next entry. -/
def sfvLoop : List (sfvFile × Option EngineOutcome) → Bool → List (String × Bool) →
    SFVCheckResult
  | [], passed, trace => ⟨passed, none, trace.reverse⟩
  | (_, none) :: _, _, trace => ⟨false, some .fileNotFound, trace.reverse⟩
  | (f, some oc) :: rest, passed, trace =>
    match VerifyCRC32 f.crc oc with
    | none => sfvLoop rest passed ((f.name, true) :: trace)
    | some e =>
      if e = .ctxCanceled ∨ e = .ctxDeadlineExceeded then ⟨false, some e, trace.reverse⟩
      else sfvLoop rest false ((f.name, false) :: trace)

/-- performSFVCheck (sfv_check.go 87-133): parse the manifest (parse errors are
returned wrapped), reject an empty entry list with ErrEmptySfv, then run the
verification loop over all entries.  treeFound models
rel.Root.GetFileByAbsolutePath and run gives the engine outcome per file. -/
def performSFVCheck (statFn : String → Option Nat) (treeFound : String → Bool)
    (run : String → EngineOutcome) (lines : List String) : SFVCheckResult :=
  match getFilesFromSFV statFn lines with
  | .error e => ⟨false, some e, []⟩
  | .ok files =>
    if files.length = 0 then ⟨false, some .emptySfv, []⟩
    else
      sfvLoop (files.map fun f => (f, if treeFound f.path then some (run f.path) else none))
        true []

/-- CheckSFV aggregation (sfv_check.go 55-84) over the per-manifest results: a
manifest whose check errors aborts with that error wrapped; otherwise a failed
manifest clears the success flag, the batch continues, and an unsuccessful
batch reports ErrSfvValidationFailed. -/
def CheckSFV : List SFVCheckResult → Bool → Option GoError
  | [], success => if success then none else some .sfvValidationFailed
  | r :: rest, success =>
    match r.err with
    | some e => some e
    | none => CheckSFV rest (success && r.passed)

/-! ## Remote-record (SRR) verifier, srr_check.go -/

/-- Local file record handed over by the directory-tree collaborator
(go-dtree): full path and size. -/
structure localFile where
  fullPath : String
  size : Nat
deriving Repr, DecidableEq

/-- One archived-file record of a fetched SRR release (pkg/srrdb). -/
structure srrArchivedFile where
  name : String
  size : Nat
  crc : String
deriving Repr, DecidableEq

/-- verifySingleSRR (srr_check.go 88-122): for every archived file, look it up
in the release tree (missing is fatal, wrapped), compare sizes (a mismatch is
ErrSrrValidationFailed size mismatch), skip hashing in fast-check mode, parse
the hex CRC, and verify the content.  The builder chain installs no context
here (srr_check.go 109-112, no WithContext call), and any VerifyCRC32 error —
whatever its kind — is discarded and replaced by ErrSrrValidationFailed
crc mismatch (srr_check.go 114-116). -/
def verifySingleSRR (lookup : String → Option localFile) (run : String → EngineOutcome)
    (fastCheck : Bool) : List srrArchivedFile → Option GoError
  | [] => none
  | fs :: rest =>
    match lookup fs.name with
    | none => some .fileNotFound
    | some lf =>
      if lf.size ≠ fs.size then some (.srrValidationFailed "size mismatch")
      else if fastCheck then verifySingleSRR lookup run fastCheck rest
      else
        match parseHexUint32 fs.crc with
        | none => some .parseCrcError
        | some want =>
          match VerifyCRC32 want (run lf.fullPath) with
          | some _ => some (.srrValidationFailed "crc mismatch")
          | none => verifySingleSRR lookup run fastCheck rest

/-! ## Archive-set validator, nfo_handler.go -/

/-- One entry of a zip container: name, decompressed content (used for .diz
and .nfo entries) and uncompressed size (used for fragments). -/
structure zipEntry where
  name : String
  content : List Char
  size : Nat
deriving Repr, DecidableEq

/-- NFO attachment record. -/
structure NFOFile where
  name : String
  content : List Char
deriving Repr, DecidableEq

/-- archiveInfo record (nfo_handler.go line 111). -/
structure archiveInfo where
  name : String
  size : Nat
  current : Nat
  total : Nat
deriving Repr, DecidableEq

/-- archiveCount record (nfo_handler.go line 118). -/
structure archiveCount where
  current : Nat
  total : Nat
deriving Repr, DecidableEq

/-- archiveResult record (nfo_handler.go line 105). -/
structure archiveResult where
  archives : List archiveInfo
  expectedTotal : Nat
  nfoFile : NFOFile
deriving Repr, DecidableEq

/-- Lower-cased filepath.Ext: the suffix starting at the final dot of the
name, empty when the name has no dot (zip entry names here are base names). -/
def lowerExt (name : String) : List Char :=
  let cs := name.toList.map Char.toLower
  match cs.reverse.takeWhile (fun c => c ≠ '.'), cs.reverse.dropWhile (fun c => c ≠ '.') with
  | ext, '.' :: _ => '.' :: ext.reverse
  | _, _ => []

/-- rarFilesPattern (nfo_handler.go line 86): the extension .rar, or a dot
followed by r, s or t and at least one digit. -/
def isRarExt : List Char → Bool
  | ['.', 'r', 'a', 'r'] => true
  | '.' :: c :: ds => (c = 'r' || c = 's' || c = 't') && !ds.isEmpty && ds.all Char.isDigit
  | _ => false

/-- Delimiter class of archiveCountPattern (nfo_handler.go line 91): square
bracket, parenthesis or curly brace, either side. -/
def isCountDelim (c : Char) : Bool :=
  c = '[' || c = ']' || c = '(' || c = ')' || c = '\x7b' || c = '\x7d'

/-- Numeric value of a digit run (strconv.Atoi on the matched group; in the
Nat model the conversion cannot overflow). -/
def digitsVal (cs : List Char) : Nat := cs.foldl (fun acc c => 10 * acc + (c.toNat - 48)) 0

/-- Attempt to complete a counter match directly after an opening delimiter:
one or more digits, a slash or pipe, one or more digits, a closing delimiter.
The greedy digit runs are exact for this pattern because no character that may
follow a run is a digit. -/
def tryCount (cs : List Char) : Option (Nat × Nat) :=
  let d1 := cs.takeWhile Char.isDigit
  let r1 := cs.dropWhile Char.isDigit
  if d1.isEmpty then none
  else
    match r1 with
    | sep :: r2 =>
      if sep = '/' || sep = '|' then
        let d2 := r2.takeWhile Char.isDigit
        let r3 := r2.dropWhile Char.isDigit
        if d2.isEmpty then none
        else
          match r3 with
          | d :: _ => if isCountDelim d then some (digitsVal d1, digitsVal d2) else none
          | [] => none
      else none
    | [] => none

/-- Leftmost match of archiveCountPattern in the content (FindSubmatch). -/
def findArchiveCount : List Char → Option (Nat × Nat)
  | [] => none
  | c :: rest =>
    if isCountDelim c then
      match tryCount rest with
      | some r => some r
      | none => findArchiveCount rest
    else findArchiveCount rest

/-- processDizContent (nfo_handler.go 274-291): extract the current and total
archive numbers from the .diz content; no match is ErrNoFileCountInDiz. -/
def processDizContent (content : List Char) : Except GoError archiveCount :=
  match findArchiveCount content with
  | none => .error .noFileCountInDiz
  | some (cur, tot) => .ok ⟨cur, tot⟩

/-- Entry-classification loop of processZipContents (nfo_handler.go 207-243)
together with the final validity checks of lines 245-254: a container without
a positive counter is ErrNoFileCountInDiz, a container whose fragment record
still equals the zero value archiveInfo is ErrNoArchiveInZip. -/
def processZipContentsLoop :
    List zipEntry → archiveCount → archiveInfo → NFOFile → Bool →
    Except GoError (archiveInfo × NFOFile)
  | [], count, archive, nfo, _ =>
    if count.current = 0 ∨ count.total = 0 then .error .noFileCountInDiz
    else if archive = ⟨"", 0, 0, 0⟩ then .error .noArchiveInZip
    else .ok ({ archive with current := count.current, total := count.total }, nfo)
  | e :: rest, count, archive, nfo, extractNFO =>
    let ext := lowerExt e.name
    if ext = ['.', 'd', 'i', 'z'] then
      match processDizContent e.content with
      | .error err => .error err
      | .ok c =>
        processZipContentsLoop rest (if 0 < c.current then c else count) archive nfo extractNFO
    else if ext = ['.', 'n', 'f', 'o'] ∧ extractNFO then
      if !e.content.isEmpty then
        processZipContentsLoop rest count archive ⟨e.name, e.content⟩ false
      else processZipContentsLoop rest count archive nfo extractNFO
    else if isRarExt ext then
      processZipContentsLoop rest count ⟨e.name, e.size, 0, 0⟩ nfo extractNFO
    else processZipContentsLoop rest count archive nfo extractNFO

/-- processZipContents (nfo_handler.go 198-255) for one container. -/
def processZipContents (entries : List zipEntry) (extractNFO : Bool) :
    Except GoError (archiveInfo × NFOFile) :=
  processZipContentsLoop entries ⟨0, 0⟩ ⟨"", 0, 0, 0⟩ ⟨"", []⟩ extractNFO

/-- Container loop of processZipFiles (nfo_handler.go 163-186): the first
container whose total is recorded while totalExpectedFiles is still zero
supplies the expected total of the whole set. -/
def processZipFilesLoop :
    List (List zipEntry) → NFOFile → List archiveInfo → Nat →
    Except GoError archiveResult
  | [], nfo, archives, total => .ok ⟨archives, total, nfo⟩
  | f :: fs, nfo, archives, total =>
    let extractNFO := nfo.content.isEmpty
    match processZipContents f extractNFO with
    | .error e => .error e
    | .ok (ai, nfo2) =>
      let nfo3 := if extractNFO ∧ !nfo2.content.isEmpty then nfo2 else nfo
      let total2 := if total = 0 then ai.total else total
      processZipFilesLoop fs nfo3 (archives ++ [ai]) total2

/-- processZipFiles (nfo_handler.go 156-195) over the containers of one
directory. -/
def processZipFiles (files : List (List zipEntry)) : Except GoError archiveResult :=
  processZipFilesLoop files ⟨"", []⟩ [] 0

/-- validateArchiveCollection (nfo_handler.go 294-310): the fragment count
must equal the expected total, reported with expected and actual counts on
mismatch, and the set of distinct fragment sizes (the Go uniqueSizes map) must
have at most two elements. -/
def validateArchiveCollection (result : archiveResult) : Option GoError :=
  if result.archives.length ≠ result.expectedTotal then
    some (.zipCountMismatch result.expectedTotal result.archives.length)
  else if 2 < ((result.archives.map archiveInfo.size).dedup).length then
    some .zipTooManySizes
  else none

/-- Observable predicate: the engine invocation of this sidecar entry ran to
completion (tree lookup succeeded and the read was neither interrupted nor
failed). -/
def entryCompleted (p : sfvFile × Option EngineOutcome) : Bool :=
  match p.2 with
  | some (.ok _) => true
  | _ => false

/-- Pass/fail verdict of one completed sidecar entry. -/
def entryResult (p : sfvFile × Option EngineOutcome) : Bool :=
  match p.2 with
  | some oc => (VerifyCRC32 p.1.crc oc).isNone
  | none => false

/-! # Proofs

## Linearity of the CRC register over GF(2) -/

lemma shiftRight_xor (x y n : Nat) : (x ^^^ y) >>> n = x >>> n ^^^ y >>> n := by
  apply Nat.eq_of_testBit_eq
  intro i
  simp [Nat.testBit_shiftRight, Nat.testBit_xor]

lemma and_one_cases (x : Nat) : x &&& 1 = 0 ∨ x &&& 1 = 1 := by
  rw [Nat.and_one_is_mod]
  exact Nat.mod_two_eq_zero_or_one x

lemma xor_swap_mid (a b c d : Nat) : (a ^^^ b) ^^^ (c ^^^ d) = (a ^^^ c) ^^^ (b ^^^ d) := by
  rw [Nat.xor_assoc, Nat.xor_assoc]
  congr 1
  rw [← Nat.xor_assoc, ← Nat.xor_assoc, Nat.xor_comm b c]

lemma crcStep_eq (r : Nat) : crcStep r = (r >>> 1) ^^^ crcMask r := by
  unfold crcStep crcMask
  by_cases h : r &&& 1 = 1
  · rw [if_pos h, if_pos h]
  · rw [if_neg h, if_neg h, Nat.xor_zero]

lemma crcMask_xor (x y : Nat) : crcMask (x ^^^ y) = crcMask x ^^^ crcMask y := by
  have hcond : (x ^^^ y) &&& 1 = (x &&& 1) ^^^ (y &&& 1) := Nat.and_xor_distrib_right
  unfold crcMask
  rcases and_one_cases x with h1 | h1 <;> rcases and_one_cases y with h2 | h2 <;>
    rw [h1, h2] at hcond <;> rw [hcond, h1, h2] <;> simp

theorem crcStep_xor (x y : Nat) : crcStep (x ^^^ y) = crcStep x ^^^ crcStep y := by
  rw [crcStep_eq, crcStep_eq, crcStep_eq, shiftRight_xor, crcMask_xor]
  exact xor_swap_mid _ _ _ _

lemma crcStepIter_xor (n x y : Nat) :
    crcStep^[n] (x ^^^ y) = crcStep^[n] x ^^^ crcStep^[n] y := by
  induction n generalizing x y with
  | zero => simp
  | succ n IH => simp only [Function.iterate_succ_apply, crcStep_xor, IH]

lemma crcUpdateByte_decomp (r b : Nat) :
    crcUpdateByte r b = crcStep^[8] r ^^^ crcUpdateByte 0 b := by
  unfold crcUpdateByte
  rw [← crcStepIter_xor]
  simp [Nat.zero_xor]

lemma crcRegister_nil (r : Nat) : crcRegister r [] = r := rfl

lemma crcRegister_cons (r b : Nat) (bs : List Nat) :
    crcRegister r (b :: bs) = crcRegister (crcUpdateByte r b) bs := rfl

lemma crcRegister_append (r : Nat) (A B : List Nat) :
    crcRegister r (A ++ B) = crcRegister (crcRegister r A) B := by
  simp [crcRegister, List.foldl_append]

/-- The register map is affine in its initial value: the initial register is
advanced by the zero-byte operator once per byte and xored with the register
obtained from the zero initial value. -/
theorem crcRegister_affine (bs : List Nat) :
    ∀ r : Nat, crcRegister r bs = crcStep^[8 * bs.length] r ^^^ crcRegister 0 bs := by
  induction bs with
  | nil => intro r; simp [crcRegister_nil]
  | cons b bs IH =>
    intro r
    rw [crcRegister_cons, IH (crcUpdateByte r b), crcRegister_cons 0 b bs,
      IH (crcUpdateByte 0 b)]
    rw [crcUpdateByte_decomp r b, crcStepIter_xor]
    rw [← Function.iterate_add_apply]
    have h8 : 8 * (b :: bs).length = 8 * bs.length + 8 := by
      simp [List.length_cons]
      ring
    rw [h8, Nat.xor_assoc]

lemma xor_shuffle (a b c f : Nat) : (a ^^^ b) ^^^ ((b ^^^ c) ^^^ f) = (a ^^^ c) ^^^ f := by
  calc (a ^^^ b) ^^^ ((b ^^^ c) ^^^ f)
      = a ^^^ (b ^^^ (b ^^^ (c ^^^ f))) := by rw [Nat.xor_assoc, Nat.xor_assoc]
    _ = a ^^^ ((b ^^^ b) ^^^ (c ^^^ f)) := by rw [Nat.xor_assoc]
    _ = (a ^^^ c) ^^^ f := by rw [Nat.xor_self, Nat.zero_xor, ← Nat.xor_assoc]

/-- Correctness of the combine operation: combining the CRC32 of a prefix with
the CRC32 of a suffix and the suffix length yields the CRC32 of the
concatenation.  This is the glossary property of CRC32 combine in the spec. -/
theorem CRC32Combine_correct (A B : List Nat) :
    CRC32Combine (crc32 A) (crc32 B) B.length = crc32 (A ++ B) := by
  unfold CRC32Combine
  by_cases hB : B.length = 0
  · rw [List.length_eq_zero] at hB
    subst hB
    simp
  · rw [if_neg hB]
    unfold crc32
    rw [crcRegister_append, crcRegister_affine B (crcRegister 0xFFFFFFFF A),
        crcRegister_affine B 0xFFFFFFFF, crcStepIter_xor]
    exact xor_shuffle _ _ _ _

lemma crc32_nil : crc32 [] = 0 := by decide

/-! ## Chunk plan lemmas -/

lemma if_cr_eq (cr : Nat) (hcr : cr = 0 ∨ cr = chunkSize) :
    (if cr = 0 then chunkSize else cr) = chunkSize := by
  rcases hcr with h | h
  · rw [if_pos h]
  · subst h
    split <;> rfl

lemma buildChunksLoop_length (S : Nat) :
    ∀ fuel fr cr, fr ≤ fuel → (fr = 0 ∨ cr = 0 ∨ cr = chunkSize) →
    (buildChunksLoop S fuel fr cr).length = (fr + chunkSize - 1) / chunkSize := by
  intro fuel
  induction fuel with
  | zero =>
    intro fr cr hle _
    have : fr = 0 := by omega
    subst this
    simp only [buildChunksLoop, List.length_nil]
    decide
  | succ fuel IH =>
    intro fr cr hle hcr
    match fr with
    | 0 =>
      simp only [buildChunksLoop, List.length_nil]
      decide
    | fr+1 =>
      have hcs : (if cr = 0 then chunkSize else cr) = chunkSize := by
        rcases hcr with h | h
        · omega
        · exact if_cr_eq cr h
      simp only [buildChunksLoop, hcs, List.length_cons]
      by_cases hsmall : fr + 1 ≤ chunkSize
      · have hta : min (fr + 1) chunkSize = fr + 1 := Nat.min_eq_left hsmall
        rw [hta]
        have hz : fr + 1 - (fr + 1) = 0 := by omega
        rw [hz]
        have h0 : (buildChunksLoop S fuel 0 (chunkSize - (fr + 1))).length = 0 := by
          match fuel with
          | 0 => rfl
          | fuel+1 => rfl
        rw [h0]
        simp only [chunkSize] at hsmall ⊢
        omega
      · have hta : min (fr + 1) chunkSize = chunkSize := Nat.min_eq_right (by omega)
        rw [hta]
        have hd : chunkSize - chunkSize = 0 := by omega
        rw [hd]
        have hcspos : 0 < chunkSize := by decide
        rw [IH (fr + 1 - chunkSize) 0 (by omega) (Or.inr (Or.inl rfl))]
        simp only [chunkSize] at hsmall ⊢
        omega

lemma buildChunksLoop_sum (S : Nat) :
    ∀ fuel fr cr, fr ≤ fuel →
    ((buildChunksLoop S fuel fr cr).map fileChunk.chunkLength).sum = fr := by
  intro fuel
  induction fuel with
  | zero =>
    intro fr cr hle
    have : fr = 0 := by omega
    subst this
    simp [buildChunksLoop]
  | succ fuel IH =>
    intro fr cr hle
    match fr with
    | 0 => simp [buildChunksLoop]
    | fr+1 =>
      have hcpos : 0 < (if cr = 0 then chunkSize else cr) := by
        split
        · decide
        · omega
      have hta : 0 < min (fr + 1) (if cr = 0 then chunkSize else cr) := by
        omega
      simp only [buildChunksLoop, List.map_cons, List.sum_cons]
      rw [IH (fr + 1 - min (fr + 1) (if cr = 0 then chunkSize else cr)) _ (by omega)]
      omega

lemma buildChunksLoop_getElem (S : Nat) :
    ∀ fuel fr cr, fr ≤ fuel → fr ≤ S → (fr = 0 ∨ cr = 0 ∨ cr = chunkSize) →
    ∀ i, i < (buildChunksLoop S fuel fr cr).length →
    (buildChunksLoop S fuel fr cr)[i]? =
      some ⟨(S - fr) + chunkSize * i, min (fr - chunkSize * i) chunkSize⟩ := by
  intro fuel
  induction fuel with
  | zero =>
    intro fr cr hfuel hle hcr i hi
    have : fr = 0 := by omega
    subst this
    simp only [buildChunksLoop, List.length_nil] at hi
    omega
  | succ fuel IH =>
    intro fr cr hfuel hle hcr i hi
    match fr with
    | 0 =>
      simp only [buildChunksLoop, List.length_nil] at hi
      omega
    | fr+1 =>
      have hcs : (if cr = 0 then chunkSize else cr) = chunkSize := by
        rcases hcr with h | h
        · omega
        · exact if_cr_eq cr h
      simp only [buildChunksLoop, hcs] at hi ⊢
      by_cases hsmall : fr + 1 ≤ chunkSize
      · have hta : min (fr + 1) chunkSize = fr + 1 := Nat.min_eq_left hsmall
        rw [hta] at hi ⊢
        have hz : fr + 1 - (fr + 1) = 0 := by omega
        rw [hz] at hi ⊢
        have h0 : (buildChunksLoop S fuel 0 (chunkSize - (fr + 1))).length = 0 := by
          match fuel with
          | 0 => rfl
          | fuel+1 => rfl
        rw [List.length_cons, h0] at hi
        have hi0 : i = 0 := by omega
        subst hi0
        rw [List.getElem?_cons_zero]
        refine congrArg some ?_
        rw [fileChunk.mk.injEq]
        constructor
        · omega
        · omega
      · have hta : min (fr + 1) chunkSize = chunkSize := Nat.min_eq_right (by omega)
        rw [hta] at hi ⊢
        have hd : chunkSize - chunkSize = 0 := by omega
        rw [hd] at hi ⊢
        match i with
        | 0 =>
          rw [List.getElem?_cons_zero]
          refine congrArg some ?_
          rw [fileChunk.mk.injEq]
          constructor
          · omega
          · omega
        | j+1 =>
          rw [List.getElem?_cons_succ]
          rw [List.length_cons] at hi
          have hcspos : 0 < chunkSize := by decide
          have hstep := IH (fr + 1 - chunkSize) 0 (by omega) (by omega)
            (Or.inr (Or.inl rfl)) j (Nat.lt_of_succ_lt_succ hi)
          refine hstep.trans (congrArg some ?_)
          rw [fileChunk.mk.injEq]
          constructor
          · simp only [chunkSize] at hsmall hle ⊢
            omega
          · have hl : fr + 1 - chunkSize * (j + 1) = fr + 1 - chunkSize - chunkSize * j := by
              simp only [chunkSize]
              omega
            rw [hl]

lemma buildChunksLoop_join (L : List Nat) :
    ∀ fuel fr cr, fr ≤ fuel → fr ≤ L.length →
    ((buildChunksLoop L.length fuel fr cr).map (chunkBytes L)).flatten
      = L.drop (L.length - fr) := by
  intro fuel
  induction fuel with
  | zero =>
    intro fr cr hfuel hle
    have : fr = 0 := by omega
    subst this
    simp [buildChunksLoop, List.drop_length]
  | succ fuel IH =>
    intro fr cr hfuel hle
    match fr with
    | 0 => simp [buildChunksLoop, List.drop_length]
    | fr+1 =>
      have hcpos : 0 < (if cr = 0 then chunkSize else cr) := by
        split
        · decide
        · omega
      have htapos : 0 < min (fr + 1) (if cr = 0 then chunkSize else cr) := by
        omega
      have htale : min (fr + 1) (if cr = 0 then chunkSize else cr) ≤ fr + 1 :=
        Nat.min_le_left _ _
      simp only [buildChunksLoop, List.map_cons, List.flatten_cons]
      rw [IH (fr + 1 - min (fr + 1) (if cr = 0 then chunkSize else cr)) _ (by omega) (by omega)]
      simp only [chunkBytes]
      have harith : L.length - (fr + 1 - min (fr + 1) (if cr = 0 then chunkSize else cr))
          = (L.length - (fr + 1)) + min (fr + 1) (if cr = 0 then chunkSize else cr) := by
        omega
      rw [harith]
      exact List.drop_take_append_drop L _ _

/-! ## Parallel run lemmas -/

lemma jobsFrom_length (bytes : List Nat) :
    ∀ (l : List fileChunk) (i : Nat), (jobsFrom bytes i l).length = l.length := by
  intro l
  induction l with
  | nil => intro i; rfl
  | cons fc rest IH =>
    intro i
    simp only [jobsFrom, List.length_cons, IH]

lemma jobsFrom_idx_ge (bytes : List Nat) :
    ∀ (l : List fileChunk) (i : Nat) (c : chunk), c ∈ jobsFrom bytes i l → i ≤ c.idx := by
  intro l
  induction l with
  | nil => intro i c hc; simp [jobsFrom] at hc
  | cons fc rest IH =>
    intro i c hc
    rcases List.mem_cons.mp hc with h | h
    · subst h
      exact Nat.le_refl _
    · exact Nat.le_of_succ_le (IH (i + 1) c h)

lemma jobsFrom_pairwise (bytes : List Nat) :
    ∀ (l : List fileChunk) (i : Nat),
    (jobsFrom bytes i l).Pairwise (fun a b => a.idx ≠ b.idx) := by
  intro l
  induction l with
  | nil => intro i; exact List.Pairwise.nil
  | cons fc rest IH =>
    intro i
    refine List.Pairwise.cons ?_ (IH (i + 1))
    intro c hc
    have := jobsFrom_idx_ge bytes rest (i + 1) c hc
    simp only [chunkJob]
    omega

lemma jobsFrom_getElem (bytes : List Nat) :
    ∀ (l : List fileChunk) (i k : Nat), k < l.length →
    ∃ fc, (jobsFrom bytes i l)[k]? = some (chunkJob bytes (i + k) fc) := by
  intro l
  induction l with
  | nil => intro i k hk; simp at hk
  | cons fc rest IH =>
    intro i k hk
    match k with
    | 0 =>
      exact ⟨fc, by simp [jobsFrom]⟩
    | k+1 =>
      obtain ⟨fc2, h2⟩ := IH (i + 1) k (by simpa using Nat.lt_of_succ_lt_succ hk)
      refine ⟨fc2, ?_⟩
      simp only [jobsFrom, List.getElem?_cons_succ]
      rw [h2]
      have : i + 1 + k = i + (k + 1) := by omega
      rw [this]

/-- Storing a result list whose indices enumerate i, i+1, ... overwrites the
corresponding segment of the results slice and leaves the rest unchanged. -/
lemma storeFold_seq :
    ∀ (l res : List chunk) (i : Nat), i + l.length ≤ res.length →
    (∀ k (hk : k < l.length), (l.get ⟨k, hk⟩).idx = i + k) →
    l.foldl (fun acc r => acc.set r.idx r) res
      = res.take i ++ l ++ res.drop (i + l.length) := by
  intro l
  induction l with
  | nil =>
    intro res i hle _
    simp only [List.foldl_nil, List.length_nil, Nat.add_zero, List.append_nil]
    exact (List.take_append_drop i res).symm
  | cons c l IH =>
    intro res i hle hidx
    have hc : c.idx = i := by
      have := hidx 0 (by simp)
      simpa using this
    simp only [List.foldl_cons, hc]
    have hlen : i < res.length := by
      simp only [List.length_cons] at hle
      omega
    have hstep := IH (res.set i c) (i + 1)
      (by simp only [List.length_set]; simp only [List.length_cons] at hle; omega)
      (fun k hk => by
        have := hidx (k + 1) (by simpa using Nat.succ_lt_succ hk)
        simpa [Nat.add_assoc, Nat.add_comm, Nat.add_left_comm] using this)
    rw [hstep]
    have hset : res.set i c = res.take i ++ c :: res.drop (i + 1) := by
      rw [List.set_eq_take_append_cons_drop, if_pos hlen]
    rw [hset]
    have htake1 : (res.take i ++ c :: res.drop (i + 1)).take (i + 1) = res.take i ++ [c] := by
      rw [List.take_append_eq_append_take]
      have h1 : (res.take i).length = i := by
        rw [List.length_take]
        omega
      rw [List.take_of_length_le (by omega), h1]
      have h2 : i + 1 - i = 1 := by omega
      rw [h2]
      rfl
    have hdrop1 : (res.take i ++ c :: res.drop (i + 1)).drop (i + 1 + l.length)
        = res.drop (i + (c :: l).length) := by
      rw [List.drop_append_eq_append_drop]
      have h1 : (res.take i).length = i := by
        rw [List.length_take]
        omega
      rw [List.drop_of_length_le (by omega), h1]
      have h2 : i + 1 + l.length - i = l.length + 1 := by omega
      rw [h2]
      simp only [List.nil_append, List.drop_succ_cons, List.drop_drop]
      congr 1
      simp only [List.length_cons]
      omega
    rw [htake1, hdrop1]
    simp only [List.append_assoc, List.singleton_append]

/-- Length of the canonical result list equals the pre-sized slot count. -/
lemma parallelResults_length (bytes : List Nat) :
    (parallelResults bytes).length = totalChunks bytes.length := by
  unfold parallelResults totalChunks buildChunks
  rw [jobsFrom_length,
    buildChunksLoop_length bytes.length bytes.length bytes.length chunkSize
      (Nat.le_refl _) (Or.inr (Or.inr rfl))]

lemma parallelResults_idx (bytes : List Nat) :
    ∀ k (hk : k < (parallelResults bytes).length), ((parallelResults bytes).get ⟨k, hk⟩).idx = k := by
  intro k hk
  unfold parallelResults at hk ⊢
  have hkl : k < (buildChunks bytes.length).length := by
    rw [jobsFrom_length] at hk
    exact hk
  obtain ⟨fc, hfc⟩ := jobsFrom_getElem bytes (buildChunks bytes.length) 0 k hkl
  have := List.getElem?_eq_getElem hk
  rw [this] at hfc
  have : (jobsFrom bytes 0 (buildChunks bytes.length)).get ⟨k, hk⟩
      = chunkJob bytes (0 + k) fc := by
    have hg : (jobsFrom bytes 0 (buildChunks bytes.length))[k] = chunkJob bytes (0 + k) fc :=
      Option.some.inj hfc
    simpa [List.get_eq_getElem] using hg
  rw [this]
  simp [chunkJob]

/-- Storing the canonical results (arrival order equal to index order)
reproduces the canonical list. -/
lemma storeLoop_canonical (bytes : List Nat) :
    storeLoop (totalChunks bytes.length) (parallelResults bytes) = parallelResults bytes := by
  unfold storeLoop
  have hlen := parallelResults_length bytes
  rw [storeFold_seq (parallelResults bytes) (List.replicate (totalChunks bytes.length) ⟨0, 0, 0⟩) 0
    (by simp [hlen]) (fun k hk => by simpa using parallelResults_idx bytes k hk)]
  simp [hlen]

lemma combineResults_jobsFrom (bytes : List Nat) :
    ∀ (l : List fileChunk) (i : Nat) (a : Nat),
    (jobsFrom bytes i l).foldl (fun r c => CRC32Combine r c.crc c.len) a
      = l.foldl (fun r fc => CRC32Combine r (crc32 (chunkBytes bytes fc))
          (chunkBytes bytes fc).length) a := by
  intro l
  induction l with
  | nil => intro i a; rfl
  | cons fc rest IH =>
    intro i a
    simp only [jobsFrom, List.foldl_cons, chunkJob]
    exact IH (i + 1) _

lemma foldl_combine_crc :
    ∀ (ls : List (List Nat)) (P : List Nat),
    ls.foldl (fun r b => CRC32Combine r (crc32 b) b.length) (crc32 P)
      = crc32 (P ++ ls.flatten) := by
  intro ls
  induction ls with
  | nil => intro P; simp
  | cons b ls IH =>
    intro P
    simp only [List.foldl_cons, List.flatten_cons]
    rw [CRC32Combine_correct P b, IH (P ++ b), List.append_assoc]

/-- Core refinement: the value GetCRC32Parallel computes equals the plain
CRC32 of the whole file contents. -/
theorem parallel_eq_sequential (bytes : List Nat) :
    combineResults (storeLoop (totalChunks bytes.length) (parallelResults bytes))
      = crc32 bytes := by
  rw [storeLoop_canonical]
  unfold combineResults parallelResults
  rw [combineResults_jobsFrom]
  rw [show (0 : Nat) = crc32 [] from crc32_nil.symm]
  rw [← List.foldl_map (chunkBytes bytes) (fun r b => CRC32Combine r (crc32 b) b.length)]
  rw [foldl_combine_crc, List.nil_append]
  congr 1
  have hjoin := buildChunksLoop_join bytes bytes.length bytes.length chunkSize
    (Nat.le_refl _) (Nat.le_refl _)
  unfold buildChunks
  rw [hjoin]
  simp

/-! ## Arrival-order invariance of the store loop -/

lemma foldl_set_perm :
    ∀ {l l2 : List chunk}, l.Perm l2 → l.Pairwise (fun a b => a.idx ≠ b.idx) →
    ∀ init : List chunk,
    l.foldl (fun acc r => acc.set r.idx r) init
      = l2.foldl (fun acc r => acc.set r.idx r) init := by
  intro l l2 p
  induction p with
  | nil => intro _ init; rfl
  | cons x p IH =>
    intro hp init
    simp only [List.foldl_cons]
    exact IH (List.pairwise_cons.mp hp).2 _
  | swap x y l =>
    intro hp init
    simp only [List.foldl_cons]
    have hxy : y.idx ≠ x.idx := (List.pairwise_cons.mp hp).1 x (List.mem_cons_self _ _)
    rw [List.set_comm _ _ _ hxy]
  | trans p₁ p₂ IH₁ IH₂ =>
    intro hp init
    rw [IH₁ hp init,
      IH₂ ((p₁.pairwise_iff (fun h => Ne.symm h)).mp hp) init]

/-- Any two arrival orders that are permutations of the canonical result list
produce the same stored slice, hence the same combined checksum. -/
theorem store_combine_perm (bytes : List Nat) (l l2 : List chunk)
    (h : l.Perm (parallelResults bytes)) (h2 : l2.Perm (parallelResults bytes)) :
    combineResults (storeLoop (totalChunks bytes.length) l)
      = combineResults (storeLoop (totalChunks bytes.length) l2) := by
  have hcanon : (parallelResults bytes).Pairwise (fun a b => a.idx ≠ b.idx) :=
    jobsFrom_pairwise bytes _ 0
  have hp : l.Pairwise (fun a b => a.idx ≠ b.idx) :=
    (h.pairwise_iff (fun hne => Ne.symm hne)).mpr hcanon
  have hll : l.Perm l2 := h.trans h2.symm
  unfold storeLoop
  rw [foldl_set_perm hll hp]

/-! ## Sidecar verification loop lemmas -/

lemma entryCompleted_elim (p : sfvFile × Option EngineOutcome)
    (h : entryCompleted p = true) : ∃ bs, p.2 = some (EngineOutcome.ok bs) := by
  unfold entryCompleted at h
  match hp : p.2 with
  | some (.ok bs) => exact ⟨bs, rfl⟩
  | some .canceled => rw [hp] at h; simp at h
  | some .deadlineExceeded => rw [hp] at h; simp at h
  | some .ioFailure => rw [hp] at h; simp at h
  | none => rw [hp] at h; simp at h

lemma verifyCRC32_ok_not_ctx (want : Nat) (bs : List Nat) (e : GoError)
    (h : VerifyCRC32 want (EngineOutcome.ok bs) = some e) :
    e = GoError.crcMismatch := by
  have h2 : (if crc32 bs ≠ want then some GoError.crcMismatch else none) = some e := h
  by_cases hc : crc32 bs = want
  · rw [if_neg (not_not_intro hc)] at h2
    exact absurd h2 (by simp)
  · rw [if_pos hc] at h2
    exact (Option.some.inj h2).symm

lemma sfvLoop_completed :
    ∀ (entries : List (sfvFile × Option EngineOutcome)) (passed : Bool)
      (trace : List (String × Bool)),
    (∀ p ∈ entries, entryCompleted p = true) →
    sfvLoop entries passed trace =
      ⟨passed && entries.all entryResult, none,
        trace.reverse ++ entries.map (fun p => (p.1.name, entryResult p))⟩ := by
  intro entries
  induction entries with
  | nil =>
    intro passed trace _
    simp [sfvLoop]
  | cons p rest IH =>
    intro passed trace hall
    obtain ⟨f, oc⟩ := p
    obtain ⟨bs, hbs⟩ := entryCompleted_elim (f, oc) (hall (f, oc) (List.mem_cons_self _ _))
    simp only at hbs
    subst hbs
    have hres : entryResult (f, some (EngineOutcome.ok bs))
        = (VerifyCRC32 f.crc (EngineOutcome.ok bs)).isNone := rfl
    simp only [sfvLoop]
    split
    · rename_i hv
      rw [IH passed ((f.name, true) :: trace) (fun q hq => hall q (List.mem_cons_of_mem _ hq))]
      simp [List.all_cons, List.map_cons, hres, hv]
    · rename_i e hv
      have he : e = GoError.crcMismatch := verifyCRC32_ok_not_ctx _ _ _ hv
      subst he
      rw [if_neg (by simp)]
      rw [IH false ((f.name, false) :: trace) (fun q hq => hall q (List.mem_cons_of_mem _ hq))]
      simp [List.all_cons, List.map_cons, hres, hv]

lemma sfvLoop_missing_abort :
    ∀ (pre : List (sfvFile × Option EngineOutcome)) (f : sfvFile)
      (rest : List (sfvFile × Option EngineOutcome)) (passed : Bool)
      (trace : List (String × Bool)),
    (∀ p ∈ pre, entryCompleted p = true) →
    sfvLoop (pre ++ (f, none) :: rest) passed trace =
      ⟨false, some GoError.fileNotFound,
        trace.reverse ++ pre.map (fun p => (p.1.name, entryResult p))⟩ := by
  intro pre
  induction pre with
  | nil =>
    intro f rest passed trace _
    simp [sfvLoop]
  | cons p pre IH =>
    intro f rest passed trace hall
    obtain ⟨g, oc⟩ := p
    obtain ⟨bs, hbs⟩ := entryCompleted_elim (g, oc) (hall (g, oc) (List.mem_cons_self _ _))
    simp only at hbs
    subst hbs
    have hres : entryResult (g, some (EngineOutcome.ok bs))
        = (VerifyCRC32 g.crc (EngineOutcome.ok bs)).isNone := rfl
    simp only [List.cons_append, sfvLoop]
    split
    · rename_i hv
      rw [show (pre.append ((f, none) :: rest)) = pre ++ (f, none) :: rest from rfl]
      rw [IH f rest passed ((g.name, true) :: trace)
        (fun q hq => hall q (List.mem_cons_of_mem _ hq))]
      simp [List.map_cons, hres, hv]
    · rename_i e hv
      have he : e = GoError.crcMismatch := verifyCRC32_ok_not_ctx _ _ _ hv
      subst he
      rw [if_neg (by simp)]
      rw [show (pre.append ((f, none) :: rest)) = pre ++ (f, none) :: rest from rfl]
      rw [IH f rest false ((g.name, false) :: trace)
        (fun q hq => hall q (List.mem_cons_of_mem _ hq))]
      simp [List.map_cons, hres, hv]

lemma sfvLoop_cancel_abort :
    ∀ (pre : List (sfvFile × Option EngineOutcome)) (f : sfvFile) (oc : EngineOutcome)
      (rest : List (sfvFile × Option EngineOutcome)) (passed : Bool)
      (trace : List (String × Bool)) (cerr : GoError),
    (∀ p ∈ pre, entryCompleted p = true) →
    VerifyCRC32 f.crc oc = some cerr →
    (cerr = GoError.ctxCanceled ∨ cerr = GoError.ctxDeadlineExceeded) →
    sfvLoop (pre ++ (f, some oc) :: rest) passed trace =
      ⟨false, some cerr,
        trace.reverse ++ pre.map (fun p => (p.1.name, entryResult p))⟩ := by
  intro pre
  induction pre with
  | nil =>
    intro f oc rest passed trace cerr _ hv hc
    simp only [List.nil_append, sfvLoop]
    split
    · rename_i hv2
      rw [hv] at hv2
      exact absurd hv2 (by simp)
    · rename_i e hv2
      rw [hv] at hv2
      have he : cerr = e := Option.some.inj hv2
      subst he
      rw [if_pos hc]
      simp
  | cons p pre IH =>
    intro f oc rest passed trace cerr hall hv hc
    obtain ⟨g, oc2⟩ := p
    obtain ⟨bs, hbs⟩ := entryCompleted_elim (g, oc2) (hall (g, oc2) (List.mem_cons_self _ _))
    simp only at hbs
    subst hbs
    have hres : entryResult (g, some (EngineOutcome.ok bs))
        = (VerifyCRC32 g.crc (EngineOutcome.ok bs)).isNone := rfl
    simp only [List.cons_append, sfvLoop]
    split
    · rename_i hv2
      rw [show (pre.append ((f, some oc) :: rest)) = pre ++ (f, some oc) :: rest from rfl]
      rw [IH f oc rest passed ((g.name, true) :: trace) cerr
        (fun q hq => hall q (List.mem_cons_of_mem _ hq)) hv hc]
      simp [List.map_cons, hres, hv2]
    · rename_i e hv2
      have he : e = GoError.crcMismatch := verifyCRC32_ok_not_ctx _ _ _ hv2
      subst he
      rw [if_neg (by simp)]
      rw [show (pre.append ((f, some oc) :: rest)) = pre ++ (f, some oc) :: rest from rfl]
      rw [IH f oc rest false ((g.name, false) :: trace) cerr
        (fun q hq => hall q (List.mem_cons_of_mem _ hq)) hv hc]
      simp [List.map_cons, hres, hv2]

lemma sfvLoop_err_cases :
    ∀ (entries : List (sfvFile × Option EngineOutcome)) (passed : Bool)
      (trace : List (String × Bool)),
    (sfvLoop entries passed trace).err = none ∨
    (sfvLoop entries passed trace).err = some GoError.fileNotFound ∨
    (sfvLoop entries passed trace).err = some GoError.ctxCanceled ∨
    (sfvLoop entries passed trace).err = some GoError.ctxDeadlineExceeded := by
  intro entries
  induction entries with
  | nil => intro passed trace; left; rfl
  | cons p rest IH =>
    intro passed trace
    obtain ⟨f, oc⟩ := p
    match oc with
    | none => right; left; rfl
    | some oc =>
      simp only [sfvLoop]
      split
      · exact IH passed _
      · rename_i e hv
        by_cases hc : e = GoError.ctxCanceled ∨ e = GoError.ctxDeadlineExceeded
        · rw [if_pos hc]
          rcases hc with h | h
          · right; right; left; rw [h]
          · right; right; right; rw [h]
        · rw [if_neg hc]
          exact IH false _

lemma CheckSFV_agg :
    ∀ (runs : List SFVCheckResult) (success : Bool),
    (∀ r ∈ runs, r.err = none) →
    CheckSFV runs success =
      if success && runs.all (fun r => r.passed) then none
      else some GoError.sfvValidationFailed := by
  intro runs
  induction runs with
  | nil =>
    intro success _
    simp [CheckSFV]
  | cons r rest IH =>
    intro success hall
    have hr : r.err = none := hall r (List.mem_cons_self _ _)
    simp only [CheckSFV]
    rw [hr]
    rw [IH (success && r.passed) (fun q hq => hall q (List.mem_cons_of_mem _ hq))]
    simp [List.all_cons, Bool.and_assoc]

/-! ## Manifest parsing lemmas -/

lemma processSFVEntry_err (statFn : String → Option Nat) (fileName crcStr : String)
    (e : GoError) (h : processSFVEntry statFn fileName crcStr = .error e) :
    e = GoError.statError ∨ e = GoError.parseCrcError := by
  unfold processSFVEntry at h
  split at h
  · left
    exact (Except.error.inj h).symm
  · split at h
    · right
      exact (Except.error.inj h).symm
    · exact absurd h (by simp)

lemma buildSFVEntries_length (statFn : String → Option Nat) :
    ∀ (ms : List (String × String)) (files : List sfvFile),
    buildSFVEntries statFn ms = .ok files → files.length = ms.length := by
  intro ms
  induction ms with
  | nil =>
    intro files h
    simp only [buildSFVEntries] at h
    rw [← Except.ok.inj h]
    rfl
  | cons m rest IH =>
    obtain ⟨name, crcStr⟩ := m
    intro files h
    simp only [buildSFVEntries] at h
    split at h
    · exact absurd h (by simp)
    · split at h
      · exact absurd h (by simp)
      · rename_i f _ fs heq
        rw [← Except.ok.inj h]
        simp only [List.length_cons]
        rw [IH fs heq]

lemma buildSFVEntries_err (statFn : String → Option Nat) :
    ∀ (ms : List (String × String)) (e : GoError),
    buildSFVEntries statFn ms = .error e →
    e = GoError.statError ∨ e = GoError.parseCrcError := by
  intro ms
  induction ms with
  | nil =>
    intro e h
    exact absurd h (by simp [buildSFVEntries])
  | cons m rest IH =>
    obtain ⟨name, crcStr⟩ := m
    intro e h
    simp only [buildSFVEntries] at h
    split at h
    · rename_i e2 heq
      cases Except.error.inj h
      exact processSFVEntry_err statFn name crcStr _ heq
    · split at h
      · rename_i heq
        cases Except.error.inj h
        exact IH _ heq
      · exact absurd h (by simp)

lemma getFilesFromSFV_ne_nil (statFn : String → Option Nat) (lines : List String)
    (files : List sfvFile) (h : getFilesFromSFV statFn lines = .ok files) :
    files ≠ [] := by
  simp only [getFilesFromSFV] at h
  split at h
  · exact absurd h (by simp)
  · rename_i hne
    have hlen := buildSFVEntries_length statFn _ _ h
    intro hnil
    subst hnil
    simp only [List.length_nil] at hlen
    have hz : List.filterMap parseSFVLine lines = [] :=
      List.length_eq_zero.mp (by omega)
    rw [hz] at hne
    exact hne rfl

lemma getFilesFromSFV_err (statFn : String → Option Nat) (lines : List String)
    (e : GoError) (h : getFilesFromSFV statFn lines = .error e) :
    e = GoError.invalidSfv ∨ e = GoError.statError ∨ e = GoError.parseCrcError := by
  simp only [getFilesFromSFV] at h
  split at h
  · left
    exact (Except.error.inj h).symm
  · right
    exact buildSFVEntries_err statFn _ _ h

lemma performSFVCheck_no_emptySfv (statFn : String → Option Nat) (treeFound : String → Bool)
    (run : String → EngineOutcome) (lines : List String) :
    (performSFVCheck statFn treeFound run lines).err ≠ some GoError.emptySfv := by
  unfold performSFVCheck
  split
  · rename_i e heq
    intro hcontra
    have he : e = GoError.emptySfv := Option.some.inj hcontra
    subst he
    rcases getFilesFromSFV_err statFn lines _ heq with h | h | h <;> exact absurd h (by simp)
  · rename_i files heq
    split
    · rename_i hlen
      have hne := getFilesFromSFV_ne_nil statFn lines files heq
      rw [List.length_eq_zero] at hlen
      exact absurd hlen hne
    · rcases sfvLoop_err_cases
        (files.map fun f => (f, if treeFound f.path then some (run f.path) else none)) true []
        with h | h | h | h <;> rw [h] <;> simp

/-! ## Archive-set validation lemmas -/

lemma processZipContentsLoop_total_pos :
    ∀ (entries : List zipEntry) (count : archiveCount) (archive : archiveInfo)
      (nfo : NFOFile) (x : Bool) (ai : archiveInfo) (nf : NFOFile),
    processZipContentsLoop entries count archive nfo x = .ok (ai, nf) →
    0 < ai.total ∧ 0 < ai.current := by
  intro entries
  induction entries with
  | nil =>
    intro count archive nfo x ai nf h
    simp only [processZipContentsLoop] at h
    split at h
    · exact absurd h (by simp)
    · split at h
      · exact absurd h (by simp)
      · rename_i hcount _
        push_neg at hcount
        have h2 := Except.ok.inj h
        have hai : ai = { archive with current := count.current, total := count.total } :=
          (congrArg Prod.fst h2).symm
        subst hai
        simp only
        omega
  | cons entry rest IH =>
    intro count archive nfo x ai nf h
    simp only [processZipContentsLoop] at h
    split at h
    · split at h
      · exact absurd h (by simp)
      · exact IH _ _ _ _ _ _ h
    · split at h
      · split at h
        · exact IH _ _ _ _ _ _ h
        · exact IH _ _ _ _ _ _ h
      · split at h
        · exact IH _ _ _ _ _ _ h
        · exact IH _ _ _ _ _ _ h

lemma processZipFilesLoop_total :
    ∀ (fs : List (List zipEntry)) (nfo : NFOFile) (archives : List archiveInfo)
      (total : Nat) (r : archiveResult), 0 < total →
    processZipFilesLoop fs nfo archives total = .ok r → r.expectedTotal = total := by
  intro fs
  induction fs with
  | nil =>
    intro nfo archives total r hpos h
    simp only [processZipFilesLoop] at h
    rw [← Except.ok.inj h]
  | cons f fs IH =>
    intro nfo archives total r hpos h
    simp only [processZipFilesLoop] at h
    split at h
    · exact absurd h (by simp)
    · rename_i ai nfo2 heq
      rw [if_neg (show ¬ total = 0 by omega)] at h
      exact IH _ _ _ _ hpos h

/-- The first container processed supplies the expected total of the set. -/
theorem processZipFiles_first_total (f : List zipEntry) (fs : List (List zipEntry))
    (r : archiveResult) (h : processZipFiles (f :: fs) = .ok r) :
    ∃ ai nfo2, processZipContents f true = .ok (ai, nfo2) ∧ r.expectedTotal = ai.total := by
  unfold processZipFiles at h
  simp only [processZipFilesLoop] at h
  split at h
  · exact absurd h (by simp)
  · rename_i ai nfo2 heq
    rw [show ([] : List Char).isEmpty = true from rfl] at heq
    rw [if_pos trivial] at h
    have hpos := (processZipContentsLoop_total_pos f _ _ _ _ ai nfo2 heq).1
    refine ⟨ai, nfo2, heq, ?_⟩
    exact processZipFilesLoop_total fs _ _ _ r hpos h

lemma validateArchiveCollection_none_iff (r : archiveResult) :
    validateArchiveCollection r = none ↔
      (r.archives.length = r.expectedTotal
        ∧ ((r.archives.map archiveInfo.size).dedup).length ≤ 2) := by
  unfold validateArchiveCollection
  split
  · rename_i hne
    constructor
    · intro h
      exact absurd h (by simp)
    · intro h
      exact absurd h.1 hne
  · rename_i heq
    push_neg at heq
    split
    · rename_i hgt
      constructor
      · intro h
        exact absurd h (by simp)
      · intro h
        omega
    · rename_i hle
      push_neg at hle
      exact iff_of_true rfl ⟨heq, hle⟩

lemma validateArchiveCollection_count (r : archiveResult)
    (h : r.archives.length ≠ r.expectedTotal) :
    validateArchiveCollection r
      = some (.zipCountMismatch r.expectedTotal r.archives.length) := by
  unfold validateArchiveCollection
  rw [if_pos h]

lemma validateArchiveCollection_sizes (r : archiveResult)
    (h1 : r.archives.length = r.expectedTotal)
    (h2 : 2 < ((r.archives.map archiveInfo.size).dedup).length) :
    validateArchiveCollection r = some .zipTooManySizes := by
  unfold validateArchiveCollection
  rw [if_neg (not_not_intro h1), if_pos h2]

/-! ## Remote-record verification lemmas -/

lemma verifySingleSRR_err_kinds (lookup : String → Option localFile)
    (run : String → EngineOutcome) (fastCheck : Bool) :
    ∀ (files : List srrArchivedFile) (e : GoError),
    verifySingleSRR lookup run fastCheck files = some e →
    e = GoError.fileNotFound ∨ e = GoError.srrValidationFailed "size mismatch"
      ∨ e = GoError.srrValidationFailed "crc mismatch" ∨ e = GoError.parseCrcError := by
  intro files
  induction files with
  | nil =>
    intro e h
    exact absurd h (by simp [verifySingleSRR])
  | cons fs rest IH =>
    intro e h
    simp only [verifySingleSRR] at h
    split at h
    · left
      exact (Option.some.inj h).symm
    · split at h
      · right
        left
        exact (Option.some.inj h).symm
      · split at h
        · exact IH e h
        · split at h
          · right
            right
            right
            exact (Option.some.inj h).symm
          · split at h
            · right
              right
              left
              exact (Option.some.inj h).symm
            · exact IH e h

/-! # Claim theorems -/

/-- C1: for every file contents and every worker-count hint (any explicit hint
or the platform default), GetCRC32Parallel returns the same 32-bit CRC32 value
as the sequential GetCRC32 on the same contents, including the 0-byte file, on
which both return 0, and files smaller than one 10 MiB chunk. -/
theorem getCRC32Parallel_eq_getCRC32 :
    (∀ (bytes : List Nat) (hashThreads defaultParallelism : Nat),
      GetCRC32Parallel bytes hashThreads defaultParallelism = GetCRC32 bytes)
    ∧ GetCRC32 [] = 0 := by
  constructor
  · intro bytes hashThreads defaultParallelism
    exact parallel_eq_sequential bytes
  · decide

/-- C2: the combined CRC32 of a parallel run does not depend on the arrival
order of the ChunkResults: every result is stored at position result.idx of
the pre-sized slice and the combine fold runs in ascending index order, so any
two arrival permutations of the canonical results give equal checksums. -/
theorem parallel_combine_arrival_order_invariant (bytes : List Nat) (l l2 : List chunk)
    (h : l.Perm (parallelResults bytes)) (h2 : l2.Perm (parallelResults bytes)) :
    combineResults (storeLoop (totalChunks bytes.length) l)
      = combineResults (storeLoop (totalChunks bytes.length) l2) :=
  store_combine_perm bytes l l2 h h2

/-- Witness for C2 at a concrete three-byte file. -/
theorem parallel_combine_arrival_order_invariant_witness :
    combineResults (storeLoop (totalChunks ([1, 2, 3] : List Nat).length)
        (parallelResults [1, 2, 3]))
      = combineResults (storeLoop (totalChunks ([1, 2, 3] : List Nat).length)
        (parallelResults [1, 2, 3])) :=
  parallel_combine_arrival_order_invariant [1, 2, 3] _ _ (List.Perm.refl _) (List.Perm.refl _)

/-- C3 counterexample: in parallel mode the chunk plan of a zero-length file is
empty — it does not consist of exactly one zero-length chunk. -/
theorem zero_length_plan_counterexample :
    (buildChunks 0).length = 0 ∧ (buildChunks 0).length ≠ 1 := by
  exact ⟨rfl, by decide⟩

/-- C3 amended: a zero-length file produces an empty chunk plan — totalChunks
is 0 and the planning loop allocates no chunk — and the computed parallel
checksum is the canonical empty-input CRC32, namely 0. -/
theorem zero_length_file_empty_plan_crc_zero :
    buildChunks 0 = [] ∧ totalChunks 0 = 0
    ∧ ∀ hashThreads defaultParallelism : Nat,
        GetCRC32Parallel [] hashThreads defaultParallelism = 0 := by
  refine ⟨rfl, by decide, ?_⟩
  intro hashThreads defaultParallelism
  exact (parallel_eq_sequential []).trans crc32_nil

/-- C4: for a file of size S > 0 the chunk plan is an exact partition of the
byte range: the chunk count is the pre-sized totalChunks = ceil(S / 10 MiB),
the lengths sum to S, chunk i starts at offset chunkSize * i (so chunks are
contiguous, non-overlapping and ordered by start offset), every chunk has
positive length at most chunkSize, and every chunk except possibly the final
one has length exactly chunkSize. -/
theorem buildChunks_exact_partition (S : Nat) (hS : 0 < S) :
    ((buildChunks S).length = totalChunks S)
    ∧ (((buildChunks S).map fileChunk.chunkLength).sum = S)
    ∧ (∀ i (h : i < (buildChunks S).length),
        ((buildChunks S).get ⟨i, h⟩).startPos = chunkSize * i)
    ∧ (∀ i (h : i + 1 < (buildChunks S).length),
        ((buildChunks S).get ⟨i + 1, h⟩).startPos
          = ((buildChunks S).get ⟨i, Nat.lt_of_succ_lt h⟩).startPos
            + ((buildChunks S).get ⟨i, Nat.lt_of_succ_lt h⟩).chunkLength)
    ∧ (∀ i (h : i < (buildChunks S).length),
        0 < ((buildChunks S).get ⟨i, h⟩).chunkLength
          ∧ ((buildChunks S).get ⟨i, h⟩).chunkLength ≤ chunkSize)
    ∧ (∀ i (h : i < (buildChunks S).length), i + 1 < (buildChunks S).length →
        ((buildChunks S).get ⟨i, h⟩).chunkLength = chunkSize) := by
  have hlen : (buildChunks S).length = totalChunks S :=
    buildChunksLoop_length S S S chunkSize (Nat.le_refl _) (Or.inr (Or.inr rfl))
  have hget : ∀ i (h : i < (buildChunks S).length),
      (buildChunks S).get ⟨i, h⟩ = ⟨chunkSize * i, min (S - chunkSize * i) chunkSize⟩ := by
    intro i h
    have h1 := buildChunksLoop_getElem S S S chunkSize (Nat.le_refl _) (Nat.le_refl _)
      (Or.inr (Or.inr rfl)) i h
    rw [Nat.sub_self, Nat.zero_add] at h1
    have h2 : (buildChunks S)[i]? = some ((buildChunks S).get ⟨i, h⟩) := by
      rw [List.getElem?_eq_getElem h]
      simp [List.get_eq_getElem]
    exact Option.some.inj (h2.symm.trans h1)
  refine ⟨hlen, buildChunksLoop_sum S S S chunkSize (Nat.le_refl _), ?_, ?_, ?_, ?_⟩
  · intro i h
    rw [hget i h]
  · intro i h
    rw [hget (i + 1) h, hget i (Nat.lt_of_succ_lt h)]
    have hbound : i + 1 < totalChunks S := hlen ▸ h
    have hmin : min (S - chunkSize * i) chunkSize = chunkSize := by
      refine Nat.min_eq_right ?_
      simp only [totalChunks, chunkSize] at hbound ⊢
      omega
    simp only [hmin]
    exact (Nat.mul_succ _ _).symm
  · intro i h
    rw [hget i h]
    have hbound : i < totalChunks S := hlen ▸ h
    refine ⟨Nat.lt_min.mpr ⟨?_, by decide⟩, Nat.min_le_right _ _⟩
    simp only [totalChunks, chunkSize] at hbound ⊢
    omega
  · intro i h hsucc
    rw [hget i h]
    have hbound : i + 1 < totalChunks S := hlen ▸ hsucc
    refine Nat.min_eq_right ?_
    simp only [totalChunks, chunkSize] at hbound ⊢
    omega

/-- Witness for C4 at a concrete three-byte file size. -/
theorem buildChunks_exact_partition_witness :
    ((buildChunks 3).map fileChunk.chunkLength).sum = 3 :=
  (buildChunks_exact_partition 3 (by decide)).2.1

/-- C5 counterexample: in the remote-record verifier, a checksum computation
interrupted by cancellation is reported as the integrity-failure error
ErrSrrValidationFailed with message crc mismatch, not as the context error. -/
theorem srr_cancellation_reported_as_crc_mismatch :
    verifySingleSRR (fun _ => some ⟨"f", 13⟩) (fun _ => EngineOutcome.canceled) false
        [⟨"f", 13, "d61538ea"⟩]
      = some (GoError.srrValidationFailed "crc mismatch")
    ∧ GoError.srrValidationFailed "crc mismatch" ≠ GoError.ctxCanceled := by
  exact ⟨rfl, by decide⟩

/-- C5 amended: the sidecar verifier surfaces a cancellation that fires during
a checksum computation immediately and verbatim as the context error; the
remote-record verifier never surfaces a context error — it reports any
checksum-verification failure, cancellation included, as ErrSrrValidationFailed
crc mismatch (the archive-set validator performs no checksum computation, so
the property is vacuous there). -/
theorem cancellation_sidecar_distinguished_srr_conflated :
    (∀ (pre : List (sfvFile × Option EngineOutcome)) (f : sfvFile) (oc : EngineOutcome)
        (rest : List (sfvFile × Option EngineOutcome)) (cerr : GoError),
      (∀ p ∈ pre, entryCompleted p = true) →
      VerifyCRC32 f.crc oc = some cerr →
      (cerr = GoError.ctxCanceled ∨ cerr = GoError.ctxDeadlineExceeded) →
      sfvLoop (pre ++ (f, some oc) :: rest) true []
        = ⟨false, some cerr, pre.map (fun p => (p.1.name, entryResult p))⟩)
    ∧ (∀ (lookup : String → Option localFile) (run : String → EngineOutcome)
        (fastCheck : Bool) (files : List srrArchivedFile),
      verifySingleSRR lookup run fastCheck files ≠ some GoError.ctxCanceled
      ∧ verifySingleSRR lookup run fastCheck files ≠ some GoError.ctxDeadlineExceeded)
    ∧ (∀ (lookup : String → Option localFile) (run : String → EngineOutcome)
        (fs : srrArchivedFile) (rest : List srrArchivedFile) (lf : localFile) (want : Nat),
      lookup fs.name = some lf → lf.size = fs.size →
      parseHexUint32 fs.crc = some want →
      run lf.fullPath = EngineOutcome.canceled →
      verifySingleSRR lookup run false (fs :: rest)
        = some (GoError.srrValidationFailed "crc mismatch")) := by
  refine ⟨?_, ?_, ?_⟩
  · intro pre f oc rest cerr hall hv hc
    rw [sfvLoop_cancel_abort pre f oc rest true [] cerr hall hv hc]
    simp
  · intro lookup run fastCheck files
    constructor
    · intro hcontra
      rcases verifySingleSRR_err_kinds lookup run fastCheck files _ hcontra
        with h | h | h | h <;> exact absurd h (by decide)
    · intro hcontra
      rcases verifySingleSRR_err_kinds lookup run fastCheck files _ hcontra
        with h | h | h | h <;> exact absurd h (by decide)
  · intro lookup run fs rest lf want hl hs hp hr
    simp [verifySingleSRR, hl, hs, hp, hr, VerifyCRC32, runEngine]

/-- Witness for C5 amended: one canceled sidecar entry surfaces the context
error and an interrupted remote-record check reports a crc mismatch. -/
theorem cancellation_sidecar_distinguished_srr_conflated_witness :
    sfvLoop [(⟨"a", "a", 5, 1⟩, some EngineOutcome.canceled)] true []
      = ⟨false, some GoError.ctxCanceled, []⟩ :=
  cancellation_sidecar_distinguished_srr_conflated.1 [] ⟨"a", "a", 5, 1⟩
    EngineOutcome.canceled [] GoError.ctxCanceled
    (fun p hp => absurd hp (List.not_mem_nil p)) rfl (Or.inl rfl)

/-- C6: during sidecar verification of one manifest, checksum mismatches mark
the unit failed but the loop continues through all remaining entries, each
receiving its own pass/fail result, and the batch reports the aggregate
ErrSfvValidationFailed; a referenced file missing from the tree aborts that
manifest immediately with a fatal error, recording nothing past the entries
before it. -/
theorem sfv_mismatch_continues_missing_aborts :
    (∀ entries : List (sfvFile × Option EngineOutcome),
      (∀ p ∈ entries, entryCompleted p = true) →
      sfvLoop entries true []
        = ⟨entries.all entryResult, none,
            entries.map (fun p => (p.1.name, entryResult p))⟩)
    ∧ (∀ (pre : List (sfvFile × Option EngineOutcome)) (f : sfvFile)
        (rest : List (sfvFile × Option EngineOutcome)),
      (∀ p ∈ pre, entryCompleted p = true) →
      sfvLoop (pre ++ (f, none) :: rest) true []
        = ⟨false, some GoError.fileNotFound,
            pre.map (fun p => (p.1.name, entryResult p))⟩)
    ∧ (∀ runs : List SFVCheckResult, (∀ r ∈ runs, r.err = none) →
      CheckSFV runs true
        = if runs.all (fun r => r.passed) then none
          else some GoError.sfvValidationFailed) := by
  refine ⟨?_, ?_, ?_⟩
  · intro entries hall
    rw [sfvLoop_completed entries true [] hall]
    simp
  · intro pre f rest hall
    rw [sfvLoop_missing_abort pre f rest true [] hall]
    simp
  · intro runs hall
    rw [CheckSFV_agg runs true hall]
    simp

/-- Witness for C6: a two-entry manifest whose second entry mismatches is
processed completely, only the second entry fails, and the unit is failed. -/
theorem sfv_mismatch_continues_missing_aborts_witness :
    sfvLoop [(⟨"a", "a", crc32 [0], 1⟩, some (EngineOutcome.ok [0])),
        (⟨"b", "b", crc32 [0] + 1, 1⟩, some (EngineOutcome.ok [0]))] true []
      = ⟨false, none, [("a", true), ("b", false)]⟩ := by
  have h := sfv_mismatch_continues_missing_aborts.1
    [(⟨"a", "a", crc32 [0], 1⟩, some (EngineOutcome.ok [0])),
      (⟨"b", "b", crc32 [0] + 1, 1⟩, some (EngineOutcome.ok [0]))] (by decide)
  rw [h]
  decide

/-- C7: an archive directory validates successfully if and only if the number
of collected fragments equals the expected total — taken from the first
container processed — and there are at most two distinct fragment sizes; a
count difference is reported with expected versus actual counts (a counter
declaring total 2 with a single container present gives an expected-2-got-1
error), and more than two distinct sizes is the too-many-distinct-sizes
error. -/
theorem archive_validation_iff :
    (∀ r : archiveResult, validateArchiveCollection r = none ↔
      (r.archives.length = r.expectedTotal
        ∧ ((r.archives.map archiveInfo.size).dedup).length ≤ 2))
    ∧ (∀ r : archiveResult, r.archives.length ≠ r.expectedTotal →
      validateArchiveCollection r
        = some (.zipCountMismatch r.expectedTotal r.archives.length))
    ∧ (∀ r : archiveResult, r.archives.length = r.expectedTotal →
      2 < ((r.archives.map archiveInfo.size).dedup).length →
      validateArchiveCollection r = some .zipTooManySizes)
    ∧ (∀ (f : List zipEntry) (fs : List (List zipEntry)) (r : archiveResult),
      processZipFiles (f :: fs) = .ok r →
      ∃ ai nfo2, processZipContents f true = .ok (ai, nfo2) ∧ r.expectedTotal = ai.total)
    ∧ (processZipFiles [[⟨"file_id.diz", "test [01/02]".toList, 0⟩, ⟨"archive.rar", [], 11⟩]]
        = .ok ⟨[⟨"archive.rar", 11, 1, 2⟩], 2, ⟨"", []⟩⟩)
    ∧ (validateArchiveCollection ⟨[⟨"archive.rar", 11, 1, 2⟩], 2, ⟨"", []⟩⟩
        = some (.zipCountMismatch 2 1)) := by
  refine ⟨validateArchiveCollection_none_iff, validateArchiveCollection_count,
    validateArchiveCollection_sizes, processZipFiles_first_total, rfl, by decide⟩

/-- Witness for C7: the expected total of the scenario-E set comes from its
first and only container. -/
theorem archive_validation_iff_witness :
    ∃ ai nfo2,
      processZipContents [⟨"file_id.diz", "test [01/02]".toList, 0⟩, ⟨"archive.rar", [], 11⟩]
          true = .ok (ai, nfo2)
      ∧ (archiveResult.mk [⟨"archive.rar", 11, 1, 2⟩] 2 ⟨"", []⟩).expectedTotal = ai.total :=
  archive_validation_iff.2.2.2.1
    [⟨"file_id.diz", "test [01/02]".toList, 0⟩, ⟨"archive.rar", [], 11⟩] []
    ⟨[⟨"archive.rar", 11, 1, 2⟩], 2, ⟨"", []⟩⟩ rfl

/-- C8: the counter content test [01/05] parses to current 1, total 5; content
with no delimited numeric pair — such as the text no archive count, empty
content, or non-numeric fields — yields ErrNoFileCountInDiz, which is distinct
from ErrNoArchiveInZip, the error raised for a container that has a valid
counter but no fragment entry. -/
theorem diz_counter_parsing_and_errors :
    processDizContent "test [01/05]".toList = .ok ⟨1, 5⟩
    ∧ processDizContent "no archive count".toList = .error .noFileCountInDiz
    ∧ processDizContent [] = .error .noFileCountInDiz
    ∧ processDizContent "test [aa/05]".toList = .error .noFileCountInDiz
    ∧ GoError.noFileCountInDiz ≠ GoError.noArchiveInZip
    ∧ processZipContents [⟨"file_id.diz", "test [01/05]".toList, 0⟩] true
        = .error .noArchiveInZip := by
  refine ⟨rfl, rfl, rfl, rfl, by decide, rfl⟩

/-- C9 counterexample: the IEEE CRC32 of the 13 bytes of test-content with a
newline is 0xd61538ea, not 0xe4f6bb59, so verifying the manifest line pairing
test.rar with e4f6bb59 against that file fails with ErrCRCMismatch instead of
passing. -/
theorem crc_of_test_content_not_e4f6bb59 :
    crc32 ("test-content\n".toList.map Char.toNat) = 0xd61538ea
    ∧ crc32 ("test-content\n".toList.map Char.toNat) ≠ 0xe4f6bb59
    ∧ VerifyCRC32 0xe4f6bb59 (EngineOutcome.ok ("test-content\n".toList.map Char.toNat))
        = some GoError.crcMismatch := by
  refine ⟨by decide, by decide, by decide⟩

/-- C9 amended: e4f6bb59 is the CRC32 of the 15 bytes of test-content-3 with a
newline (the passing fixture of the repository test suite), so its manifest
line verifies without error against that content; the manifest line pairing
test.rar with ffffffff fails with ErrCRCMismatch against the 13-byte
test-content file, whose CRC32 is d61538ea. -/
theorem scenario_crc_pass_fail :
    parseSFVLine "test.rar e4f6bb59" = some ("test.rar", "e4f6bb59")
    ∧ parseHexUint32 "e4f6bb59" = some 0xe4f6bb59
    ∧ crc32 ("test-content-3\n".toList.map Char.toNat) = 0xe4f6bb59
    ∧ VerifyCRC32 0xe4f6bb59 (EngineOutcome.ok ("test-content-3\n".toList.map Char.toNat))
        = none
    ∧ parseSFVLine "test.rar ffffffff" = some ("test.rar", "ffffffff")
    ∧ parseHexUint32 "ffffffff" = some 0xffffffff
    ∧ crc32 ("test-content\n".toList.map Char.toNat) = 0xd61538ea
    ∧ VerifyCRC32 0xffffffff (EngineOutcome.ok ("test-content\n".toList.map Char.toNat))
        = some GoError.crcMismatch := by
  refine ⟨by decide, by decide, by decide, by decide, by decide, by decide, by decide, by decide⟩

/-- C10: whenever manifest parsing succeeds the entry list is non-empty — zero
regex matches already produce the invalid-manifest error and every match
contributes exactly one entry — so the ErrEmptySfv branch of performSFVCheck
is unreachable and performSFVCheck never returns ErrEmptySfv. -/
theorem sfv_entries_nonempty_no_emptySfv :
    (∀ (statFn : String → Option Nat) (lines : List String) (files : List sfvFile),
      getFilesFromSFV statFn lines = Except.ok files → files ≠ [])
    ∧ (∀ (statFn : String → Option Nat) (treeFound : String → Bool)
        (run : String → EngineOutcome) (lines : List String),
      (performSFVCheck statFn treeFound run lines).err ≠ some GoError.emptySfv) :=
  ⟨getFilesFromSFV_ne_nil, performSFVCheck_no_emptySfv⟩

/-- Witness for C10: a concrete one-line manifest parses to a non-empty entry
list. -/
theorem sfv_entries_nonempty_no_emptySfv_witness :
    ([⟨"test.rar", "test.rar", 0xe4f6bb59, 13⟩] : List sfvFile) ≠ [] :=
  sfv_entries_nonempty_no_emptySfv.1 (fun _ => some 13) ["test.rar e4f6bb59"]
    [⟨"test.rar", "test.rar", 0xe4f6bb59, 13⟩] rfl

end GoRelease
